import Mathlib

/-!
Shallow embedding of the coordination core of the auto-qbitz-io backend.

The Python source is embedded as pure Lean functions; the implicit effects of
the Python code are made explicit:
  * `datetime.now()` becomes an explicit `now : Int` argument (seconds);
  * the persistent JSON state file becomes a `Disk` value threaded through
    the state-manager operations (`Disk.saved st` models a file whose JSON
    parses to `st`, `Disk.corrupt` a file whose parse raises, `Disk.missing`
    an absent file);
  * the process-wide asyncio locks are elided: the model is the single-writer
    sequential semantics the locks enforce;
  * external collaborators (the LLM execution capability, the planner output,
    sha256, uuid4, Python ast.parse, the documentation-research enrichment)
    are oracle parameters, so every theorem quantifies over their behaviour.

Python truthiness (`if result:` with `result : Optional[str]`) is modelled by
`strTruthy`, which is false exactly on `None` and the empty string.
-/

/-- One record of attempted work (`BuildStep` in backend/core/state.py). -/
structure BuildStep where
  id : String
  timestamp : Int
  agent : String
  action : String
  status : String
  result : Option String := none
  error : Option String := none
deriving Repr, DecidableEq

/-- A declarative capability (`SystemCapability` in backend/core/state.py). -/
structure SystemCapability where
  name : String
  description : String
  implemented : Bool := false
  file_path : Option String := none
deriving Repr, DecidableEq

/-- One memoized task result, an entry of `metadata["task_cache"]`
(backend/core/state.py, `add_cached_result`). -/
structure CacheEntry where
  result : String
  timestamp : Int
deriving Repr, DecidableEq

/-- The aggregate persisted state (`SystemState` in backend/core/state.py).
The free-form `metadata` dict is modelled by its two used components: the
`"task_cache"` entry (absent key observationally equal to the empty cache) and
the presence of the `"recent_prompt_cache"` key, whose value is always `{}`. -/
structure SystemState where
  version : String := "0.1.0"
  last_updated : Int := 0
  build_steps : List BuildStep := []
  capabilities : List SystemCapability := []
  generated_files : List String := []
  task_cache : List (String × CacheEntry) := []
  prompt_cache_init : Bool := false
deriving Repr, DecidableEq

/-- The durable state file: absent, unparsable, or parsing to a state. -/
inductive Disk where
  | missing : Disk
  | corrupt : Disk
  | saved : SystemState → Disk
deriving Repr, DecidableEq

/-- Python truthiness of an `Optional[str]`: `None` and `""` are falsy. -/
def strTruthy : Option String → Bool
  | some s => s ≠ ""
  | none => false

/-- The fresh default state `SystemState()` created at time `now`
(the `last_updated` field defaults to `datetime.now()`). -/
def defaultState (now : Int) : SystemState := { last_updated := now }

/-- Serialize the full state to the state file, stamping `last_updated`
(`StateManager.save` in backend/core/state.py). Returns the in-memory state
and the new disk contents. -/
def saveState (st : SystemState) (now : Int) : SystemState × Disk :=
  let st' := { st with last_updated := now }
  (st', Disk.saved st')

/-- The crash-recovery rewrite applied by `StateManager.load` to each step:
a `"running"` step becomes `"interrupted"` with the standard error text. -/
def stepRecover (s : BuildStep) : BuildStep :=
  if s.status = "running" then
    { s with status := "interrupted",
             error := some "Server restarted while task was running" }
  else s

/-- Embeds `StateManager.load` (backend/core/state.py lines 52-89): read the
state file falling back to a fresh default on a missing or unparsable file,
rewrite stale `"running"` steps to `"interrupted"`, save immediately when any
step was recovered, then ensure the `"recent_prompt_cache"` metadata key
exists (this last change is not itself saved). Returns the in-memory state
and the resulting disk contents. -/
def load (d : Disk) (now : Int) : SystemState × Disk :=
  let st0 := match d with
    | Disk.saved st => st
    | Disk.corrupt => defaultState now
    | Disk.missing => defaultState now
  let recovered : Nat := (st0.build_steps.filter (fun s => s.status = "running")).length
  let st1 := { st0 with build_steps := st0.build_steps.map stepRecover }
  let stepSave := if recovered > 0 then
      let stS := { st1 with last_updated := now }
      (stS, Disk.saved stS)
    else (st1, d)
  ({ stepSave.1 with prompt_cache_init := true }, stepSave.2)

/-- Embeds `StateManager.add_build_step`: append the step, then save. -/
def add_build_step (st : SystemState) (step : BuildStep) (now : Int) :
    SystemState × Disk :=
  saveState { st with build_steps := st.build_steps ++ [step] } now

/-- Field patch applied by `StateManager.update_build_step` to the matched
step: the status is always written; the result and error are overwritten only
when the corresponding argument is truthy (non-`None` and non-empty). -/
def updateStepFields (status : String) (result error : Option String)
    (s : BuildStep) : BuildStep :=
  let s1 := { s with status := status }
  let s2 := if strTruthy result then { s1 with result := result } else s1
  if strTruthy error then { s2 with error := error } else s2

/-- The `for`/`break` loop of `update_build_step`: patch the first step whose
id matches, leaving every other step untouched; no-op when the id is absent. -/
def updateFirstStep (sid status : String) (result error : Option String) :
    List BuildStep → List BuildStep
  | [] => []
  | s :: rest =>
    if s.id = sid then updateStepFields status result error s :: rest
    else s :: updateFirstStep sid status result error rest

/-- Embeds `StateManager.update_build_step` (backend/core/state.py lines
119-130): patch the first step with the given id, then save. -/
def update_build_step (st : SystemState) (sid status : String)
    (result error : Option String) (now : Int) : SystemState × Disk :=
  saveState
    { st with build_steps := updateFirstStep sid status result error st.build_steps }
    now

/-- The upsert loop of `StateManager.add_capability`: the first capability
with the same name has its description, implemented flag and file path
overwritten; if none matches, the new capability is appended. -/
def upsertCap (c : SystemCapability) : List SystemCapability → List SystemCapability
  | [] => [c]
  | cap :: rest =>
    if cap.name = c.name then
      { cap with description := c.description,
                 implemented := c.implemented,
                 file_path := c.file_path } :: rest
    else cap :: upsertCap c rest

/-- Embeds `StateManager.add_capability` (backend/core/state.py lines
132-146): upsert by name, then save. -/
def add_capability (st : SystemState) (c : SystemCapability) (now : Int) :
    SystemState × Disk :=
  saveState { st with capabilities := upsertCap c st.capabilities } now

/-- Field patch applied by `StateManager.update_capability` to the matched
capability: the implemented flag is always written; the file path only when
the argument is truthy. -/
def patchCapFields (impl : Bool) (fp : Option String) (cap : SystemCapability) :
    SystemCapability :=
  let c1 := { cap with implemented := impl }
  if strTruthy fp then { c1 with file_path := fp } else c1

/-- The patch loop of `StateManager.update_capability`: the first capability
with the given name is patched. No-op when the name is absent. -/
def patchCap (name : String) (impl : Bool) (fp : Option String) :
    List SystemCapability → List SystemCapability
  | [] => []
  | cap :: rest =>
    if cap.name = name then patchCapFields impl fp cap :: rest
    else cap :: patchCap name impl fp rest

/-- Embeds `StateManager.update_capability` (backend/core/state.py lines
148-157): patch by name, then save. -/
def update_capability (st : SystemState) (name : String) (impl : Bool)
    (fp : Option String) (now : Int) : SystemState × Disk :=
  saveState { st with capabilities := patchCap name impl fp st.capabilities } now

/-- Capability name derived from a file path by `add_generated_file`:
`file_path.replace('/', '_').replace('.', '_')`. -/
def deriveCapName (fp : String) : String :=
  (fp.map (fun c => if c = '/' then '_' else c)).map
    (fun c => if c = '.' then '_' else c)

/-- Embeds `StateManager.add_generated_file` (backend/core/state.py lines
159-176): set-insert the path into `generated_files` (saving if inserted),
then upsert a derived capability marked implemented (which saves again).
The returned disk is the final save. -/
def add_generated_file (st : SystemState) (fp : String)
    (description : Option String) (now : Int) : SystemState × Disk :=
  let st1 := if fp ∈ st.generated_files then st
    else { st with generated_files := st.generated_files ++ [fp] }
  let desc := match description with
    | some d => if d ≠ "" then d else "Capability for " ++ fp
    | none => "Capability for " ++ fp
  add_capability st1
    { name := deriveCapName fp, description := desc,
      implemented := true, file_path := some fp } now

/-- Dictionary lookup in the task cache (`cache.get(task_hash)`). -/
def lookupCache (c : List (String × CacheEntry)) (h : String) : Option CacheEntry :=
  (c.find? (fun p => p.1 = h)).map (fun p => p.2)

/-- Dictionary deletion (`del cache[task_hash]`). -/
def eraseCache (c : List (String × CacheEntry)) (h : String) :
    List (String × CacheEntry) :=
  c.filter (fun p => p.1 ≠ h)

/-- Dictionary insertion (`cache[task_hash] = entry`): overwrite the existing
key if present, else append. -/
def insertCache (c : List (String × CacheEntry)) (h : String) (e : CacheEntry) :
    List (String × CacheEntry) :=
  if c.any (fun p => p.1 = h) then
    c.map (fun p => if p.1 = h then (h, e) else p)
  else c ++ [(h, e)]

/-- Embeds `StateManager.get_cached_result` (backend/core/state.py lines
183-198): a hit younger than 3600 seconds returns the stored text; an entry
at least 3600 seconds old is deleted and the deletion saved; a miss changes
nothing. Returns the lookup result with the new state and disk. -/
def get_cached_result (st : SystemState) (d : Disk) (h : String) (now : Int) :
    Option String × SystemState × Disk :=
  match lookupCache st.task_cache h with
  | some e =>
    if now - e.timestamp < 3600 then (some e.result, st, d)
    else
      let st1 := { st with task_cache := eraseCache st.task_cache h }
      let saved := saveState st1 now
      (none, saved.1, saved.2)
  | none => (none, st, d)

/-- Embeds `StateManager.add_cached_result` (backend/core/state.py lines
200-209): store the result under the hash with the current timestamp, save. -/
def add_cached_result (st : SystemState) (h : String) (r : String) (now : Int) :
    SystemState × Disk :=
  saveState { st with task_cache := insertCache st.task_cache h ⟨r, now⟩ } now

/-- The fixed list of protected core files (backend/core/file_guardian.py,
`PROTECTED_PATHS`). -/
def PROTECTED_PATHS : List String := [
  "backend/core/config.py",
  "backend/core/state.py",
  "backend/core/build_loop.py",
  "backend/core/llm.py",
  "backend/core/file_guardian.py",
  "backend/agents/orchestrator.py",
  "backend/agents/planner.py",
  "backend/agents/builder.py",
  "backend/agents/validator.py",
  "backend/agents/toolsmith.py",
  "backend/agents/self_improver.py",
  "backend/tools/base_tools.py",
  "backend/tools/self_improver_tools.py",
  "backend/api.py",
  "backend/main.py",
  "frontend/app/layout.tsx",
  "frontend/app/page.tsx",
  "frontend/next.config.ts",
  "frontend/package.json",
  "frontend/tsconfig.json",
  "frontend/components/ChatInterface.tsx",
  "frontend/components/StatusPanel.tsx",
  "frontend/components/CapabilitiesPanel.tsx",
  "frontend/components/BuildStepsPanel.tsx",
  "frontend/components/ControlPanel.tsx",
  "frontend/components/ApprovalsPanel.tsx"]

/-- Paths that are always blocked (backend/core/file_guardian.py,
`FORBIDDEN_PATHS`). -/
def FORBIDDEN_PATHS : List String := [".env", ".env.local", ".git/"]

/-- Path normalization shared by both guardian predicates:
`file_path.replace("\\", "/").lstrip("/")`, as a character list. -/
def normalizePath (p : String) : List Char :=
  (p.toList.map (fun c => if c = '\\' then '/' else c)).dropWhile (fun c => c = '/')

/-- Embeds `FileGuardian.is_protected` (backend/core/file_guardian.py lines
74-80): true when the normalized path equals a protected entry or ends with
`"/" + entry`. -/
def is_protected (p : String) : Bool :=
  PROTECTED_PATHS.any (fun q =>
    decide (normalizePath p = q.toList) ||
    ('/' :: q.toList).isSuffixOf (normalizePath p))

/-- Embeds `FileGuardian.is_forbidden` (backend/core/file_guardian.py lines
82-88): true when the normalized path equals a forbidden entry or starts
with one. -/
def is_forbidden (p : String) : Bool :=
  FORBIDDEN_PATHS.any (fun q =>
    decide (normalizePath p = q.toList) ||
    q.toList.isPrefixOf (normalizePath p))

/-- A queued file write awaiting human approval (`PendingApproval` in
backend/core/file_guardian.py). -/
structure PendingApproval where
  id : String
  file_path : String
  content : String
  reason : String := ""
  requested_at : Int
  status : String := "pending"
  reviewed_at : Option Int := none
deriving Repr, DecidableEq

/-- Insertion into the guardian's id-keyed approvals dict
(`self._approvals[approval.id] = approval`): overwrite an existing id,
otherwise append. -/
def insertApproval (l : List PendingApproval) (a : PendingApproval) :
    List PendingApproval :=
  if l.any (fun b => b.id = a.id) then
    l.map (fun b => if b.id = a.id then a else b)
  else l ++ [a]

/-- Embeds `FileGuardian.request_approval` (backend/core/file_guardian.py
lines 90-99): always succeeds, creating a fresh pending record. The random
truncated uuid4 id is an explicit argument. -/
def request_approval (l : List PendingApproval) (freshId fp content reason : String)
    (now : Int) : PendingApproval × List PendingApproval :=
  let a : PendingApproval :=
    { id := freshId, file_path := fp, content := content, reason := reason,
      requested_at := now }
  (a, insertApproval l a)

/-- The project filesystem seen by the file tools, as a map from paths
relative to the project root to file contents. -/
abbrev Fs := List (String × String)

/-- Read a path from the modelled filesystem. -/
def fsRead (fs : Fs) (p : String) : Option String :=
  (fs.find? (fun q => q.1 = p)).map (fun q => q.2)

/-- Overwrite or create a file in the modelled filesystem. -/
def fsWrite (fs : Fs) (p c : String) : Fs :=
  if fs.any (fun q => q.1 = p) then
    fs.map (fun q => if q.1 = p then (p, c) else q)
  else fs ++ [(p, c)]

/-- The combined mutable world of the file tools: the state manager's state
and disk, the project filesystem, and the guardian's approvals dict with a
counter indexing the uuid supply. -/
structure ToolWorld where
  sys : SystemState
  disk : Disk
  fs : Fs
  approvals : List PendingApproval
  nextId : Nat
deriving DecidableEq

/-- Embeds `write_file` of the live backend (src/backend/tools/base_tools.py
lines 29-51): it consults no guardian at all — it writes the file, tracks it
via `add_generated_file`, and reports success; an I/O failure (oracle
`ioError`) yields an error message and no tracking. -/
def write_file_current (ioError : Option String) (fp content : String)
    (w : ToolWorld) (now : Int) : String × ToolWorld :=
  match ioError with
  | some e => ("Error writing file: " ++ e, w)
  | none =>
    let fs' := fsWrite w.fs fp content
    let stateSave := add_generated_file w.sys fp none now
    ("Successfully wrote to " ++ fp,
     { w with fs := fs', sys := stateSave.1, disk := stateSave.2 })

/-- Windows reserved filenames (backup base_tools.py, `WINDOWS_RESERVED_NAMES`). -/
def WINDOWS_RESERVED_NAMES : List String :=
  ["nul", "con", "prn", "aux",
   "com1", "com2", "com3", "com4", "com5", "com6", "com7", "com8", "com9",
   "lpt1", "lpt2", "lpt3", "lpt4", "lpt5", "lpt6", "lpt7", "lpt8", "lpt9"]

/-- Models `pathlib.Path(file_path).name` on POSIX: the last path component
after dropping empty and `"."` components. -/
def pathName (fp : String) : String :=
  ((((fp.splitOn "/").filter (fun s => s ≠ "" && s ≠ "."))).getLast?).getD ""

/-- Embeds `write_file` of the backup backend
(src/backup/qbitz_backend_backup/backend/tools/base_tools.py lines 38-99):
reject empty content, reject Windows reserved filenames, block forbidden
paths outright, divert protected paths into the approval queue without
touching the disk, syntax-check Python files (oracle `syntaxErr` models
`ast.parse`), and only then write and track the file. The truncated uuid4
approval id is supplied by the oracle `freshId` applied to the world's
counter. -/
def write_file_backup (syntaxErr : String → Option String)
    (ioError : Option String) (freshId : Nat → String) (fp content : String)
    (w : ToolWorld) (now : Int) : String × ToolWorld :=
  if content.trim = "" then
    ("ERROR: Cannot write empty content to " ++ fp, w)
  else
    let filename := (pathName fp).toLower
    if filename ∈ WINDOWS_RESERVED_NAMES then
      ("BLOCKED: '" ++ filename ++ "' is a Windows reserved filename and cannot be used.", w)
    else if is_forbidden fp then
      ("BLOCKED: '" ++ fp ++ "' is a forbidden path and cannot be written to.", w)
    else if is_protected fp then
      let req := request_approval w.approvals (freshId w.nextId) fp content
        ("Auto attempted to modify protected core file: " ++ fp) now
      ("QUEUED FOR APPROVAL: '" ++ fp ++ "' is a protected core file. " ++
       "Change has been queued for human review (approval id: " ++ req.1.id ++ "). " ++
       "A human must approve this change at /api/approvals/" ++ req.1.id ++
       "/approve before it takes effect. Do NOT attempt to bypass this protection.",
       { w with approvals := req.2, nextId := w.nextId + 1 })
    else if fp.endsWith ".py" then
      match syntaxErr content with
      | some e => ("SYNTAX ERROR: " ++ e, w)
      | none =>
        match ioError with
        | some e => ("Error writing file: " ++ e, w)
        | none =>
          let fs' := fsWrite w.fs fp content
          let stateSave := add_generated_file w.sys fp none now
          ("Successfully wrote to " ++ fp,
           { w with fs := fs', sys := stateSave.1, disk := stateSave.2 })
    else
      match ioError with
      | some e => ("Error writing file: " ++ e, w)
      | none =>
        let fs' := fsWrite w.fs fp content
        let stateSave := add_generated_file w.sys fp none now
        ("Successfully wrote to " ++ fp,
         { w with fs := fs', sys := stateSave.1, disk := stateSave.2 })

/-- Accumulator loop splitting a character list into maximal runs of
non-whitespace characters. -/
def wordsAux : List Char → List Char → List String
  | [], acc => if acc.isEmpty then [] else [String.mk acc.reverse]
  | c :: cs, acc =>
    if c.isWhitespace then
      if acc.isEmpty then wordsAux cs []
      else String.mk acc.reverse :: wordsAux cs []
    else wordsAux cs (c :: acc)

/-- Python `str.split()` with no separator: split on whitespace runs,
discarding empty fragments. -/
def pySplit (s : String) : List String := wordsAux s.toList []

/-- Python substring test `sub in s`: some suffix of `s` starts with `sub`. -/
def strContains (s sub : String) : Bool :=
  s.toList.tails.any (fun t => sub.toList.isPrefixOf t)

/-- Python `str.lower()`, character-wise (the keywords searched for are all
ASCII, where this agrees with Python). -/
def lowerStr (s : String) : String := String.mk (s.toList.map Char.toLower)

/-- The fixed subsystem keyword list of `OrchestratorAgent._is_complex_prompt`
(backend/agents/orchestrator.py line 127). -/
def SUBSYSTEM_KEYWORDS : List String :=
  ["agents", "tools", "core", "frontend", "backend", "api", "main entry point"]

/-- Embeds `OrchestratorAgent._is_complex_prompt`
(backend/agents/orchestrator.py lines 118-133): a prompt is complex when its
whitespace word count reaches 100, or at least two subsystem keywords occur
in its lowercased text, or the lowercased text contains the literal phrase
`"build a complete system"` (the `re.search` pattern has no metacharacters,
so it is a substring test). -/
def is_complex_prompt (prompt : String) : Bool :=
  if (pySplit prompt).length ≥ 100 then true
  else if 2 ≤ (SUBSYSTEM_KEYWORDS.filter
      (fun s => strContains (lowerStr prompt) s)).length then true
  else if strContains (lowerStr prompt) "build a complete system" then true
  else false

/-- The complexity classification as worded by the specification, stated
independently of the control flow of the code: word count at least 100, or
at least two of the fixed subsystem keywords occur in the lowercased text,
or the lowercased text contains the phrase `"build a complete system"`. -/
def claimComplex (prompt : String) : Prop :=
  100 ≤ (pySplit prompt).length ∨
  2 ≤ (SUBSYSTEM_KEYWORDS.filter (fun k => strContains (lowerStr prompt) k)).length ∨
  strContains (lowerStr prompt) "build a complete system" = true

/-- The dictionary returned by `OrchestratorAgent.run`: the output text, the
`"cached"` marker (false models an absent key), and the `"phases_executed"`
count present only on the decomposition path. -/
structure RunOut where
  output : String
  cached : Bool := false
  phases_executed : Option Nat := none
deriving Repr, DecidableEq

/-- The orchestrator's mutable world: the state manager's state and disk,
the bounded LRU list `_task_cache` of recently seen hashes, and a counter
indexing the uuid4 supply. -/
structure OrchWorld where
  sys : SystemState
  disk : Disk
  lru : List String
  nextId : Nat
deriving DecidableEq

/-- The external collaborators of the dispatcher, as oracle functions:
`hash` models sha256 hex digests, `uuid` the uuid4 supply (indexed by the
world's counter), `planOutput` the planner capability's output text,
`descPhases` and `numberedPhases` the two `re.findall` extractions over that
text (the labeled `Description:` pattern and the numbered-list fallback),
and `execute` the LLM agent executor, returning the output text or raising.
The documentation-research context enrichment and the context map passed to
the executor are abstracted away: `execute` is a function of the task text,
and the enrichment never affects the dispatcher's own state. -/
structure Oracles where
  hash : String → String
  uuid : Nat → String
  planOutput : String → String
  descPhases : String → List String
  numberedPhases : String → List String
  execute : String → Except String String

mutual

/-- Embeds `OrchestratorAgent.run` (backend/agents/orchestrator.py lines
135-254). In order: the recursion guard (`depth > 2` returns the fixed
sentinel untouched), the task hash, the LRU hot-set bookkeeping with the
TTL-checked cache lookup on a hot hash, the complexity classification, then
either sequential decomposition at `depth + 1` (summary cached and returned
with the phase count) or atomic execution (BuildStep recorded running,
completed/failed on the executor's outcome, output cached on success, the
executor's error re-raised on failure). -/
def run (o : Oracles) (now : Int) (task : String) (depth : Nat) (w : OrchWorld) :
    Except String RunOut × OrchWorld :=
  if h : depth > 2 then
    (Except.ok { output := "Max recursion depth reached, stopping further decomposition." }, w)
  else
    let task_hash := o.hash task
    let cacheStep : Option String × OrchWorld :=
      if task_hash ∈ w.lru then
        let w1 := { w with lru := w.lru.erase task_hash ++ [task_hash] }
        let res := get_cached_result w1.sys w1.disk task_hash now
        (res.1, { w1 with sys := res.2.1, disk := res.2.2 })
      else
        let lru1 := w.lru ++ [task_hash]
        (none, { w with lru := if lru1.length > 100 then lru1.tail else lru1 })
    match cacheStep with
    | (some r, w1) => (Except.ok { output := r, cached := true }, w1)
    | (none, w1) =>
      if is_complex_prompt task then
        let plan := o.planOutput task
        let ps0 := o.descPhases plan
        let phases := if ps0.isEmpty then o.numberedPhases plan else ps0
        match runPhases o now phases (depth + 1) w1 [] with
        | (Except.error e, w2) => (Except.error e, w2)
        | (Except.ok agg, w2) =>
          let summary := String.intercalate "\n"
            (agg.map (fun pr => "Phase: " ++ pr.1 ++ "\nResult: " ++ pr.2.output))
          let s2 := add_cached_result w2.sys task_hash summary now
          (Except.ok { output := summary, phases_executed := some phases.length },
           { w2 with sys := s2.1, disk := s2.2 })
      else
        let step_id := o.uuid w1.nextId
        let w2 := { w1 with nextId := w1.nextId + 1 }
        let step : BuildStep :=
          { id := step_id, timestamp := now, agent := "orchestrator",
            action := task, status := "running" }
        let s1 := add_build_step w2.sys step now
        let w3 := { w2 with sys := s1.1, disk := s1.2 }
        match o.execute task with
        | Except.ok out =>
          let s2 := update_build_step w3.sys step_id "completed" (some out) none now
          let s3 := add_cached_result s2.1 task_hash out now
          (Except.ok { output := out }, { w3 with sys := s3.1, disk := s3.2 })
        | Except.error e =>
          let s2 := update_build_step w3.sys step_id "failed" none (some e) now
          (Except.error e, { w3 with sys := s2.1, disk := s2.2 })
termination_by (3 - depth, 1, 0)

/-- The sequential phase loop of the decomposition path of
`OrchestratorAgent.run`: each phase is dispatched by a recursive `run` call
only after the previous one returned; an exception raised by a phase
propagates (the loop has no try/except). Results accumulate in order. -/
def runPhases (o : Oracles) (now : Int) (phases : List String) (d : Nat)
    (w : OrchWorld) (acc : List (String × RunOut)) :
    Except String (List (String × RunOut)) × OrchWorld :=
  match phases with
  | [] => (Except.ok acc, w)
  | p :: rest =>
    match run o now p d w with
    | (Except.error e, w') => (Except.error e, w')
    | (Except.ok r, w') => runPhases o now rest d w' (acc ++ [(p, r)])
termination_by (3 - d, 2, phases.length)

end

/-- Python f-string rendering of an `Optional[str]`: `None` prints as
`"None"`. -/
def pyStrOpt : Option String → String
  | some s => s
  | none => "None"

/-- The generation task text built per gap by
`BuildLoop.generate_missing_components` (backup build_loop.py lines 163-168). -/
def gapTask (g : SystemCapability) : String :=
  "Generate the missing component: " ++ g.name ++ ". Description: " ++
  g.description ++ ". Target file: " ++ pyStrOpt g.file_path ++
  ". Write complete, executable code."

/-- One iteration of the gap loop of `generate_missing_components`: dispatch
the generation task to the orchestrator at depth 0; when the dispatch
returns, mark the capability implemented; when it raises, the exception is
caught and the gap is skipped (its capability is not marked). -/
def genStep (o : Oracles) (now : Int) (g : SystemCapability) (w : OrchWorld) :
    OrchWorld :=
  match run o now (gapTask g) 0 w with
  | (Except.ok _, w') =>
    let s := update_capability w'.sys g.name true g.file_path now
    { w' with sys := s.1, disk := s.2 }
  | (Except.error _, w') => w'

/-- The sequential gap loop of `generate_missing_components`. -/
def gmcLoop (o : Oracles) (now : Int) : List SystemCapability → OrchWorld → OrchWorld
  | [], w => w
  | g :: rest, w => gmcLoop o now rest (genStep o now g w)

/-- Embeds `BuildLoop.generate_missing_components` (backup build_loop.py
lines 143-181): an empty gap list returns false immediately; otherwise every
gap is processed in order by `genStep` and the call returns true. -/
def generate_missing_components (o : Oracles) (now : Int)
    (gaps : List SystemCapability) (w : OrchWorld) : Bool × OrchWorld :=
  if gaps.isEmpty then (false, w)
  else (true, gmcLoop o now gaps w)

/-- The live-index loop of `BuildLoop.identify_gaps` (backup build_loop.py
lines 115-141). The Python `for` iterates over the live capability list while
`update_capability` mutates elements in place; since the list's length never
changes, the loop visits exactly the indices `0 .. length - 1`, reading each
element from the current state. The fuel argument counts the remaining
indices and is initialized to the list length by the wrapper. A capability
with a truthy path has its file checked by the filesystem oracle `fsEx`:
present-but-unmarked capabilities are patched implemented (and the patch
saved), absent files become gaps; a capability without a truthy path is a
gap exactly when unimplemented. Gaps hold the records as read at visit time. -/
def identify_gaps_aux (fsEx : String → Bool) (now : Int) :
    Nat → Nat → SystemState → Disk → List SystemCapability →
    List SystemCapability × SystemState × Disk
  | _, 0, sys, d, gaps => (gaps.reverse, sys, d)
  | i, fuel + 1, sys, d, gaps =>
    match sys.capabilities[i]? with
    | none => (gaps.reverse, sys, d)
    | some cap =>
      match cap.file_path with
      | some p =>
        if p ≠ "" then
          if fsEx p then
            if cap.implemented then
              identify_gaps_aux fsEx now (i + 1) fuel sys d gaps
            else
              let s := update_capability sys cap.name true (some p) now
              identify_gaps_aux fsEx now (i + 1) fuel s.1 s.2 gaps
          else identify_gaps_aux fsEx now (i + 1) fuel sys d (cap :: gaps)
        else
          if cap.implemented then identify_gaps_aux fsEx now (i + 1) fuel sys d gaps
          else identify_gaps_aux fsEx now (i + 1) fuel sys d (cap :: gaps)
      | none =>
        if cap.implemented then identify_gaps_aux fsEx now (i + 1) fuel sys d gaps
        else identify_gaps_aux fsEx now (i + 1) fuel sys d (cap :: gaps)

/-- Embeds `BuildLoop.identify_gaps`: run the loop from index 0 with fuel
equal to the capability count. -/
def identify_gaps (fsEx : String → Bool) (now : Int) (sys : SystemState)
    (d : Disk) : List SystemCapability × SystemState × Disk :=
  identify_gaps_aux fsEx now 0 sys.capabilities.length sys d []

/-- The build loop's own mutable bookkeeping relevant to `run_cycle`:
the orchestrator world plus the iteration counter. -/
structure LoopWorld where
  ow : OrchWorld
  iteration : Nat
deriving DecidableEq

/-- Embeds `BuildLoop.run_cycle` (backup build_loop.py lines 201-241):
bump the iteration counter, identify gaps, return false when none remain,
otherwise generate the missing components, then save the state and return
whether generation occurred. `inspect_repository` only reads the filesystem
and prints, and `validate_system` invokes the external validator agent and
only prints the outcome; neither affects the modelled state or the return
value, so both are elided here. -/
def run_cycle (o : Oracles) (fsEx : String → Bool) (now : Int) (w : LoopWorld) :
    Bool × LoopWorld :=
  let w1 : LoopWorld := { w with iteration := w.iteration + 1 }
  let ig := identify_gaps fsEx now w1.ow.sys w1.ow.disk
  let gaps := ig.1
  let w2 : LoopWorld := { w1 with ow := { w1.ow with sys := ig.2.1, disk := ig.2.2 } }
  if gaps.isEmpty then (false, w2)
  else
    let gen := generate_missing_components o now gaps w2.ow
    let w3 : LoopWorld := { w2 with ow := gen.2 }
    let s := saveState w3.ow.sys now
    (gen.1, { w3 with ow := { w3.ow with sys := s.1, disk := s.2 } })

/-- Sample persisted state with one step still `"running"`. -/
def c2SampleState : SystemState :=
  { build_steps := [{ id := "s1", timestamp := 0, agent := "orchestrator",
                      action := "t", status := "running" }] }

/-- Sample state for the C9 witness: two steps, the first one targeted. -/
def c9SampleState : SystemState :=
  { build_steps :=
      [{ id := "a", timestamp := 0, agent := "orchestrator", action := "t1",
         status := "running", result := some "old", error := some "olderr" },
       { id := "b", timestamp := 0, agent := "orchestrator", action := "t2",
         status := "pending" }] }

/-- Concrete oracles shared by the witness instantiations: identity hashing,
counter uuids, empty plans, failing executor. -/
def sampleOracles : Oracles :=
  { hash := fun t => t, uuid := fun n => toString n,
    planOutput := fun _ => "", descPhases := fun _ => [],
    numberedPhases := fun _ => [], execute := fun _ => Except.error "unavailable" }

/-- Concrete empty orchestrator world shared by the concrete instantiations. -/
def sampleWorld : OrchWorld :=
  { sys := {}, disk := Disk.missing, lru := [], nextId := 0 }

/-- Concrete empty tool world for the C1 failing-input evaluation. -/
def sampleToolWorld : ToolWorld :=
  { sys := {}, disk := Disk.missing, fs := [], approvals := [], nextId := 0 }

/-- A gap whose generation task is atomic (its text mentions no subsystem
keyword) and whose dispatch will fail. -/
def cexGap : SystemCapability :=
  { name := "x", description := "y", implemented := false, file_path := some "z" }

/-- Oracles whose executor always raises, with identity hashing and empty
plans. -/
def cexOracles : Oracles :=
  { hash := fun t => t, uuid := fun n => toString n, planOutput := fun _ => "",
    descPhases := fun _ => [], numberedPhases := fun _ => [],
    execute := fun _ => Except.error "boom" }

/-- World registering exactly the failing gap's capability, unimplemented. -/
def cexWorld : OrchWorld :=
  { sys := { capabilities := [cexGap] }, disk := Disk.missing, lru := [], nextId := 0 }

/-- A gap whose generation task is complex (it mentions two subsystem
keywords), so that the planner path succeeds without any execution. -/
def c6WitnessGap : SystemCapability :=
  { name := "api_server", description := "backend api", implemented := false,
    file_path := some "backend/api.py" }

/-- World registering exactly the witness gap's capability, unimplemented. -/
def c6WitnessWorld : OrchWorld :=
  { sys := { capabilities := [c6WitnessGap] }, disk := Disk.missing, lru := [],
    nextId := 0 }

/-- The claim's hypothesis, decidably: the capability has a truthy artifact
path and that path exists on the filesystem. -/
def capPathOk (fsEx : String → Bool) (cap : SystemCapability) : Bool :=
  match cap.file_path with
  | some p => p ≠ "" && fsEx p
  | none => false

/-- Capability whose artifact exists in the C7 witness filesystem. -/
def c7Cap : SystemCapability :=
  { name := "n", description := "d", implemented := false, file_path := some "a.py" }

/-- World registering exactly that capability. -/
def c7World : LoopWorld :=
  { ow := { sys := { capabilities := [c7Cap] }, disk := Disk.missing, lru := [],
            nextId := 0 },
    iteration := 0 }

/-- Filesystem oracle for the C7 witness: only `"a.py"` exists. -/
def c7Fs : String → Bool := fun p => p == "a.py"

/-- Bridging lemma: the boolean prefix test agrees with the prefix order. -/
theorem prefixOf_iff {l1 l2 : List Char} : l1.isPrefixOf l2 = true ↔ l1 <+: l2 :=
  List.isPrefixOf_iff_prefix

/-- Bridging lemma: the boolean suffix test agrees with the suffix order. -/
theorem suffixOf_iff {l1 l2 : List Char} : l1.isSuffixOf l2 = true ↔ l1 <:+ l2 :=
  List.isSuffixOf_iff_suffix

/-- C10: `is_forbidden` accepts every path whose normalization merely starts
with a forbidden entry — in particular the unlisted `".env.production"` and
`".envrc"` — while `is_protected` accepts only an exact match with a
protected entry or a path whose normalization ends with `"/"` followed by a
protected entry. -/
theorem c10_guardian_path_matching :
    ∀ p : String,
      (is_forbidden p = true ↔
        ∃ f ∈ FORBIDDEN_PATHS, f.toList <+: normalizePath p) ∧
      (is_protected p = true ↔
        ∃ q ∈ PROTECTED_PATHS,
          normalizePath p = q.toList ∨ ('/' :: q.toList) <:+ normalizePath p) ∧
      is_forbidden ".env.production" = true ∧ is_forbidden ".envrc" = true := by
  intro p
  refine ⟨?_, ?_, by decide, by decide⟩
  · unfold is_forbidden
    rw [List.any_eq_true]
    constructor
    · rintro ⟨f, hf, hor⟩
      rw [Bool.or_eq_true, decide_eq_true_eq, prefixOf_iff] at hor
      rcases hor with he | hp
      · exact ⟨f, hf, by rw [he]⟩
      · exact ⟨f, hf, hp⟩
    · rintro ⟨f, hf, hp⟩
      refine ⟨f, hf, ?_⟩
      rw [Bool.or_eq_true, decide_eq_true_eq, prefixOf_iff]
      exact Or.inr hp
  · unfold is_protected
    rw [List.any_eq_true]
    constructor
    · rintro ⟨q, hq, hor⟩
      rw [Bool.or_eq_true, decide_eq_true_eq, suffixOf_iff] at hor
      exact ⟨q, hq, hor⟩
    · rintro ⟨q, hq, hor⟩
      refine ⟨q, hq, ?_⟩
      rw [Bool.or_eq_true, decide_eq_true_eq, suffixOf_iff]
      exact hor

/-- C8: the dispatcher's complexity classification holds exactly when the
word count reaches 100, or at least two subsystem keywords occur in the
lowercased task, or the lowercased task contains the literal phrase
`"build a complete system"`. -/
theorem c8_complexity_iff :
    ∀ prompt : String, is_complex_prompt prompt = true ↔ claimComplex prompt := by
  intro prompt
  unfold is_complex_prompt claimComplex
  constructor
  · intro h
    split_ifs at h with h1 h2 h3
    · exact Or.inl h1
    · exact Or.inr (Or.inl h2)
    · exact Or.inr (Or.inr h3)
  · intro h
    split_ifs with h1 h2 h3
    · rfl
    · rfl
    · rfl
    · rcases h with h | h | h
      · exact absurd h h1
      · exact absurd h h2
      · exact absurd h h3

/-- The steps returned by `load` from a parsed file are exactly the persisted
steps with the crash-recovery rewrite applied. -/
theorem load_saved_steps (st0 : SystemState) (now : Int) :
    (load (Disk.saved st0) now).1.build_steps = st0.build_steps.map stepRecover := by
  unfold load
  dsimp only
  split <;> rfl

/-- The crash-recovery rewrite never leaves a step `"running"`. -/
theorem stepRecover_status_ne (s : BuildStep) : (stepRecover s).status ≠ "running" := by
  unfold stepRecover
  split
  · simp
  · rename_i h
    exact h

/-- On a `"running"` step the rewrite produces `"interrupted"` with the
standard error text. -/
theorem stepRecover_running (s : BuildStep) (h : s.status = "running") :
    (stepRecover s).status = "interrupted" ∧
    (stepRecover s).error = some "Server restarted while task was running" := by
  unfold stepRecover
  rw [if_pos h]
  exact ⟨rfl, rfl⟩

/-- When some persisted step was `"running"`, `load` saves the rewritten
state to the state file before returning. -/
theorem load_saved_disk (st0 : SystemState) (now : Int)
    (hrun : ∃ s ∈ st0.build_steps, s.status = "running") :
    ∃ stS, (load (Disk.saved st0) now).2 = Disk.saved stS ∧
      stS.build_steps = st0.build_steps.map stepRecover := by
  unfold load
  dsimp only
  have hpos : 0 < (st0.build_steps.filter (fun s => s.status = "running")).length := by
    rcases hrun with ⟨s, hs, hstat⟩
    apply List.length_pos.mpr
    intro hnil
    have hall := List.filter_eq_nil_iff.mp hnil s hs
    simp [hstat] at hall
  rw [if_pos hpos]
  exact ⟨_, rfl, rfl⟩

/-- C2: after `load` returns, no step of the returned state is `"running"`;
every step persisted as `"running"` comes back `"interrupted"` with a
non-empty error; and when any step was recovered, the rewritten state has
been saved to durable storage before `load` returned. -/
theorem c2_crash_recovery (st0 : SystemState) (now : Int) :
    (∀ s ∈ (load (Disk.saved st0) now).1.build_steps, s.status ≠ "running") ∧
    (∀ i, ∀ h : i < st0.build_steps.length,
      (st0.build_steps.get ⟨i, h⟩).status = "running" →
      ∃ s', (load (Disk.saved st0) now).1.build_steps[i]? = some s' ∧
        s'.status = "interrupted" ∧ ∃ e, s'.error = some e ∧ e ≠ "") ∧
    ((∃ s ∈ st0.build_steps, s.status = "running") →
      ∃ stS, (load (Disk.saved st0) now).2 = Disk.saved stS ∧
        stS.build_steps = (load (Disk.saved st0) now).1.build_steps ∧
        stS.build_steps = st0.build_steps.map stepRecover) := by
  refine ⟨?_, ?_, ?_⟩
  · intro s hs
    rw [load_saved_steps] at hs
    rcases List.mem_map.mp hs with ⟨t, _, rfl⟩
    exact stepRecover_status_ne t
  · intro i h hstat
    rw [load_saved_steps, List.getElem?_map, List.getElem?_eq_getElem h]
    refine ⟨stepRecover (st0.build_steps.get ⟨i, h⟩), by simp [List.get_eq_getElem], ?_, ?_⟩
    · exact (stepRecover_running _ hstat).1
    · exact ⟨_, (stepRecover_running _ hstat).2, by decide⟩
  · intro hrun
    rcases load_saved_disk st0 now hrun with ⟨stS, hdisk, hsteps⟩
    exact ⟨stS, hdisk, by rw [hsteps, load_saved_steps], hsteps⟩

/-- Witness for C2 at a concrete persisted state containing a running step. -/
theorem c2_crash_recovery_witness :
    (∀ s ∈ (load (Disk.saved c2SampleState) 5).1.build_steps, s.status ≠ "running") ∧
    (∀ i, ∀ h : i < c2SampleState.build_steps.length,
      (c2SampleState.build_steps.get ⟨i, h⟩).status = "running" →
      ∃ s', (load (Disk.saved c2SampleState) 5).1.build_steps[i]? = some s' ∧
        s'.status = "interrupted" ∧ ∃ e, s'.error = some e ∧ e ≠ "") ∧
    ((∃ s ∈ c2SampleState.build_steps, s.status = "running") →
      ∃ stS, (load (Disk.saved c2SampleState) 5).2 = Disk.saved stS ∧
        stS.build_steps = (load (Disk.saved c2SampleState) 5).1.build_steps ∧
        stS.build_steps = c2SampleState.build_steps.map stepRecover) :=
  c2_crash_recovery c2SampleState 5

/-- The overwrite branch of dictionary insertion: when the key occurs, the
rewritten list yields the new entry on lookup. -/
theorem find_map_replace (c : List (String × CacheEntry)) (k : String)
    (e : CacheEntry) (hany : c.any (fun p => p.1 = k) = true) :
    (c.map (fun p => if p.1 = k then (k, e) else p)).find?
      (fun p => p.1 = k) = some (k, e) := by
  induction c with
  | nil => simp at hany
  | cons hd tl ih =>
    by_cases hk : hd.1 = k
    · rw [List.map_cons, if_pos hk]
      exact List.find?_cons_of_pos _ (by simp)
    · rw [List.map_cons, if_neg hk]
      rw [List.find?_cons_of_neg _ (by simpa using hk)]
      apply ih
      simpa [hk] using hany

/-- The append branch of dictionary insertion: when the key is absent, the
appended pair is found. -/
theorem find_append_single (c : List (String × CacheEntry)) (k : String)
    (e : CacheEntry) (hnone : c.any (fun p => p.1 = k) = false) :
    (c ++ [(k, e)]).find? (fun p => p.1 = k) = some (k, e) := by
  rw [List.find?_append]
  have h1 : c.find? (fun p => p.1 = k) = none := by
    rw [List.find?_eq_none]
    intro x hx
    have := List.any_eq_false.mp hnone x hx
    simpa using this
  rw [h1]
  simp

/-- Dictionary insertion followed by lookup of the same key returns the
inserted entry. -/
theorem lookup_insert (c : List (String × CacheEntry)) (k : String) (e : CacheEntry) :
    lookupCache (insertCache c k e) k = some e := by
  unfold lookupCache insertCache
  by_cases hany : c.any (fun p => p.1 = k)
  · rw [if_pos hany, find_map_replace c k e hany]
    rfl
  · rw [if_neg hany, find_append_single c k e (Bool.eq_false_iff.mpr hany)]
    rfl

/-- Dictionary deletion of a key makes its lookup miss. -/
theorem lookup_erase (c : List (String × CacheEntry)) (k : String) :
    lookupCache (eraseCache c k) k = none := by
  have hfind : (eraseCache c k).find? (fun p => p.1 = k) = none := by
    rw [List.find?_eq_none]
    intro x hx
    rcases List.mem_filter.mp hx with ⟨_, hne⟩
    simpa using hne
  simp [lookupCache, hfind]

/-- C3: a result cached at `tIns` is returned verbatim by any lookup strictly
before `tIns + 3600`; a lookup at or after `tIns + 3600` reports the entry
absent, removes it from the state, and saves the deletion to the state file. -/
theorem c3_cache_ttl (st : SystemState) (d : Disk) (key r : String)
    (tIns tLook : Int) :
    ((tLook < tIns + 3600) →
      (get_cached_result (add_cached_result st key r tIns).1 d key tLook).1 = some r) ∧
    ((tIns + 3600 ≤ tLook) →
      (get_cached_result (add_cached_result st key r tIns).1 d key tLook).1 = none ∧
      lookupCache
        ((get_cached_result (add_cached_result st key r tIns).1 d key tLook).2.1).task_cache
        key = none ∧
      (get_cached_result (add_cached_result st key r tIns).1 d key tLook).2.2 =
        Disk.saved
          (get_cached_result (add_cached_result st key r tIns).1 d key tLook).2.1) := by
  have hc : (add_cached_result st key r tIns).1.task_cache
      = insertCache st.task_cache key ⟨r, tIns⟩ := rfl
  constructor
  · intro hfresh
    simp only [get_cached_result, hc, lookup_insert]
    rw [if_pos (by omega : tLook - tIns < 3600)]
  · intro hexp
    simp only [get_cached_result, hc, lookup_insert]
    rw [if_neg (by omega : ¬ tLook - tIns < 3600)]
    refine ⟨rfl, ?_, rfl⟩
    simpa [saveState, hc] using lookup_erase (insertCache st.task_cache key ⟨r, tIns⟩) key

/-- Witness for C3: a result cached at time 0 is still returned at time 5 and
is reported absent, deleted and the deletion saved at time 3600. -/
theorem c3_cache_ttl_witness :
    (get_cached_result (add_cached_result {} "k" "res" 0).1 Disk.missing "k" 5).1
      = some "res" ∧
    ((get_cached_result (add_cached_result {} "k" "res" 0).1 Disk.missing "k" 3600).1
      = none ∧
     lookupCache
       ((get_cached_result (add_cached_result {} "k" "res" 0).1 Disk.missing "k" 3600).2.1).task_cache
       "k" = none ∧
     (get_cached_result (add_cached_result {} "k" "res" 0).1 Disk.missing "k" 3600).2.2 =
       Disk.saved
         (get_cached_result (add_cached_result {} "k" "res" 0).1 Disk.missing "k" 3600).2.1) :=
  ⟨(c3_cache_ttl {} Disk.missing "k" "res" 0 5).1 (by norm_num),
   (c3_cache_ttl {} Disk.missing "k" "res" 0 3600).2 (by norm_num)⟩

/-- The step patch always writes the requested status. -/
theorem updateStepFields_status (status : String) (result error : Option String)
    (s : BuildStep) : (updateStepFields status result error s).status = status := by
  unfold updateStepFields
  dsimp only
  split <;> split <;> rfl

/-- An untruthy result argument (absent or empty) leaves the stored result
text unchanged. -/
theorem updateStepFields_result_of_untruthy (status : String)
    (result error : Option String) (s : BuildStep) (h : strTruthy result = false) :
    (updateStepFields status result error s).result = s.result := by
  unfold updateStepFields
  dsimp only
  have hres : ¬ (strTruthy result = true) := by simp [h]
  split <;> rfl

/-- A non-empty result argument overwrites the stored result text. -/
theorem updateStepFields_result_of_some (status : String)
    (result error : Option String) (s : BuildStep) (r : String)
    (hr : result = some r) (hne : r ≠ "") :
    (updateStepFields status result error s).result = some r := by
  unfold updateStepFields
  dsimp only
  have hres : strTruthy result = true := by subst hr; simp [strTruthy, hne]
  split <;> exact hr

/-- An untruthy error argument (absent or empty) leaves the stored error
text unchanged. -/
theorem updateStepFields_error_of_untruthy (status : String)
    (result error : Option String) (s : BuildStep) (h : strTruthy error = false) :
    (updateStepFields status result error s).error = s.error := by
  unfold updateStepFields
  dsimp only
  rw [if_neg (by simp [h])]
  split <;> rfl

/-- A non-empty error argument overwrites the stored error text. -/
theorem updateStepFields_error_of_some (status : String)
    (result error : Option String) (s : BuildStep) (e : String)
    (he : error = some e) (hne : e ≠ "") :
    (updateStepFields status result error s).error = some e := by
  unfold updateStepFields
  dsimp only
  rw [if_pos (by subst he; simp [strTruthy, hne] : strTruthy error = true)]
  exact he

/-- When the first step with the given id sits at index `i`, the update loop
is exactly a point update at `i`. -/
theorem updateFirstStep_eq_set (sid status : String) (result error : Option String)
    (l : List BuildStep) :
    ∀ (i : Nat) (hi : i < l.length),
      (l.get ⟨i, hi⟩).id = sid →
      (∀ j, j < i → ∀ hj : j < l.length, (l.get ⟨j, hj⟩).id ≠ sid) →
      updateFirstStep sid status result error l =
        l.set i (updateStepFields status result error (l.get ⟨i, hi⟩)) := by
  induction l with
  | nil =>
    intro i hi
    simp at hi
  | cons s rest ih =>
    intro i hi hid hfirst
    cases i with
    | zero =>
      unfold updateFirstStep
      rw [if_pos (by simpa using hid)]
      rfl
    | succ i =>
      have hs : s.id ≠ sid := by simpa using hfirst 0 (Nat.succ_pos i) (by simp)
      have hrec := ih i (by simpa using hi) (by simpa using hid)
        (fun j hj hjl => by simpa using hfirst (j + 1) (by omega) (by simpa using hjl))
      unfold updateFirstStep
      rw [if_neg hs, hrec]
      rfl

/-- C9: `update_build_step` at the first step carrying the id always writes
the status; an absent or empty result (respectively error) argument leaves
the stored result (respectively error) unchanged while a non-empty one
overwrites it; and every other position of the step list is untouched. -/
theorem c9_update_step_frame (st : SystemState) (sid status : String)
    (result error : Option String) (now : Int) (i : Nat)
    (hi : i < st.build_steps.length)
    (hid : (st.build_steps.get ⟨i, hi⟩).id = sid)
    (hfirst : ∀ j, j < i → ∀ hj : j < st.build_steps.length,
      (st.build_steps.get ⟨j, hj⟩).id ≠ sid) :
    ((update_build_step st sid status result error now).1.build_steps.length
        = st.build_steps.length) ∧
    (∃ s', (update_build_step st sid status result error now).1.build_steps[i]?
        = some s' ∧
      s'.status = status ∧
      (strTruthy result = false → s'.result = (st.build_steps.get ⟨i, hi⟩).result) ∧
      (∀ r, result = some r → r ≠ "" → s'.result = some r) ∧
      (strTruthy error = false → s'.error = (st.build_steps.get ⟨i, hi⟩).error) ∧
      (∀ e, error = some e → e ≠ "" → s'.error = some e)) ∧
    (∀ j, j ≠ i →
      (update_build_step st sid status result error now).1.build_steps[j]? =
        st.build_steps[j]?) := by
  have hsteps : (update_build_step st sid status result error now).1.build_steps =
      st.build_steps.set i
        (updateStepFields status result error (st.build_steps.get ⟨i, hi⟩)) :=
    updateFirstStep_eq_set sid status result error st.build_steps i hi hid hfirst
  refine ⟨?_, ?_, ?_⟩
  · rw [hsteps, List.length_set]
  · refine ⟨updateStepFields status result error (st.build_steps.get ⟨i, hi⟩), ?_,
      updateStepFields_status _ _ _ _, ?_, ?_, ?_, ?_⟩
    · rw [hsteps]
      exact List.getElem?_set_self hi
    · exact fun h => updateStepFields_result_of_untruthy _ _ _ _ h
    · exact fun r hr hne => updateStepFields_result_of_some _ _ _ _ r hr hne
    · exact fun h => updateStepFields_error_of_untruthy _ _ _ _ h
    · exact fun e he hne => updateStepFields_error_of_some _ _ _ _ e he hne
  · intro j hj
    rw [hsteps]
    exact List.getElem?_set_ne (fun h => hj h.symm)

/-- Witness for C9 at index 0 of the sample state with an empty result and
an absent error argument. -/
theorem c9_update_step_frame_witness :
    ((update_build_step c9SampleState "a" "completed" (some "") none 7).1.build_steps.length
        = c9SampleState.build_steps.length) ∧
    (∃ s', (update_build_step c9SampleState "a" "completed" (some "") none 7).1.build_steps[0]?
        = some s' ∧
      s'.status = "completed" ∧
      (strTruthy (some "") = false →
        s'.result = (c9SampleState.build_steps.get ⟨0, by simp [c9SampleState]⟩).result) ∧
      (∀ r, some "" = some r → r ≠ "" → s'.result = some r) ∧
      (strTruthy none = false →
        s'.error = (c9SampleState.build_steps.get ⟨0, by simp [c9SampleState]⟩).error) ∧
      (∀ e, (none : Option String) = some e → e ≠ "" → s'.error = some e)) ∧
    (∀ j, j ≠ 0 →
      (update_build_step c9SampleState "a" "completed" (some "") none 7).1.build_steps[j]? =
        c9SampleState.build_steps[j]?) :=
  c9_update_step_frame c9SampleState "a" "completed" (some "") none 7 0
    (by simp [c9SampleState]) (by simp [c9SampleState])
    (by intro j hj hjl; omega)

/-- After an upsert of `c`, the number of capabilities named `c.name` is the
old count, or one if the name was absent. -/
theorem upsertCap_count (c : SystemCapability) (n : String) (hn : c.name = n)
    (l : List SystemCapability) :
    ((upsertCap c l).filter (fun x => x.name = n)).length =
      max 1 ((l.filter (fun x => x.name = n)).length) := by
  induction l with
  | nil => simp [upsertCap, hn]
  | cons cap rest ih =>
    by_cases hc : cap.name = c.name
    · unfold upsertCap
      rw [if_pos hc]
      have hcn : cap.name = n := by rw [hc, hn]
      simp [List.filter_cons, hcn, hn]
    · unfold upsertCap
      rw [if_neg hc]
      have hcn : ¬ cap.name = n := by rw [hn] at hc; exact hc
      simp [List.filter_cons, hcn, ih]

/-- When at most one capability carries the name, every capability with that
name after an upsert of `c` has exactly the fields of `c`. -/
theorem upsertCap_fields (c : SystemCapability) (n : String) (hn : c.name = n)
    (l : List SystemCapability)
    (hinv : ((l.filter (fun x => x.name = n)).length) ≤ 1) :
    ∀ x ∈ upsertCap c l, x.name = n →
      x.description = c.description ∧ x.implemented = c.implemented ∧
      x.file_path = c.file_path := by
  induction l with
  | nil =>
    intro x hx _
    simp [upsertCap] at hx
    subst hx
    exact ⟨rfl, rfl, rfl⟩
  | cons cap rest ih =>
    intro x hx hxn
    by_cases hc : cap.name = c.name
    · unfold upsertCap at hx
      rw [if_pos hc] at hx
      rcases List.mem_cons.mp hx with heq | hmem
      · subst heq
        exact ⟨rfl, rfl, rfl⟩
      · exfalso
        have hcn : cap.name = n := by rw [hc, hn]
        have hrest : ((rest.filter (fun x => x.name = n)).length) = 0 := by
          have hthis := hinv
          rw [List.filter_cons_of_pos (by simpa using hcn), List.length_cons] at hthis
          omega
        have : x ∈ rest.filter (fun x => x.name = n) :=
          List.mem_filter.mpr ⟨hmem, by simpa using hxn⟩
        rw [List.length_eq_zero] at hrest
        rw [hrest] at this
        simp at this
    · unfold upsertCap at hx
      rw [if_neg hc] at hx
      rcases List.mem_cons.mp hx with heq | hmem
      · exfalso
        subst heq
        rw [hn] at hc
        exact hc hxn
      · have hrest : ((rest.filter (fun x => x.name = n)).length) ≤ 1 := by
          have hcn : ¬ cap.name = n := by rw [hn] at hc; exact hc
          rw [List.filter_cons_of_neg (by simpa using hcn)] at hinv
          exact hinv
        exact ih hrest x hmem hxn

/-- C5: registering two capabilities with the same name in sequence, on a
state respecting the name-is-primary-key invariant, leaves exactly one entry
carrying that name, and its description, implemented flag and file path are
those of the second registration. -/
theorem c5_capability_upsert (st : SystemState) (c1 c2 : SystemCapability)
    (now1 now2 : Int) (hname : c1.name = c2.name)
    (hinv : ((st.capabilities.filter (fun c => c.name = c2.name)).length) ≤ 1) :
    (((add_capability (add_capability st c1 now1).1 c2 now2).1.capabilities.filter
        (fun c => c.name = c2.name)).length = 1) ∧
    (∀ c ∈ (add_capability (add_capability st c1 now1).1 c2 now2).1.capabilities,
      c.name = c2.name →
        c.description = c2.description ∧ c.implemented = c2.implemented ∧
        c.file_path = c2.file_path) := by
  have h1 : (add_capability st c1 now1).1.capabilities = upsertCap c1 st.capabilities := rfl
  have h2 : (add_capability (add_capability st c1 now1).1 c2 now2).1.capabilities =
      upsertCap c2 (upsertCap c1 st.capabilities) := by rw [← h1]; rfl
  constructor
  · rw [h2, upsertCap_count c2 c2.name rfl, upsertCap_count c1 c2.name hname]
    omega
  · rw [h2]
    apply upsertCap_fields c2 c2.name rfl
    rw [upsertCap_count c1 c2.name hname]
    omega

/-- Witness for C5: registering `"cap"` twice on the empty state. -/
theorem c5_capability_upsert_witness :
    (((add_capability (add_capability {}
        { name := "cap", description := "first", implemented := false,
          file_path := none } 1).1
        { name := "cap", description := "second", implemented := true,
          file_path := some "x.py" } 2).1.capabilities.filter
        (fun c => c.name = "cap")).length = 1) ∧
    (∀ c ∈ (add_capability (add_capability {}
        { name := "cap", description := "first", implemented := false,
          file_path := none } 1).1
        { name := "cap", description := "second", implemented := true,
          file_path := some "x.py" } 2).1.capabilities,
      c.name = "cap" →
        c.description = "second" ∧ c.implemented = true ∧
        c.file_path = some "x.py") :=
  c5_capability_upsert {}
    { name := "cap", description := "first", implemented := false, file_path := none }
    { name := "cap", description := "second", implemented := true, file_path := some "x.py" }
    1 2 rfl (by simp)

/-- C4: at any depth above 2 the dispatcher returns the fixed sentinel
immediately, with the whole world (state, disk, cache, LRU list, id supply)
unchanged — so no execution, no decomposition, no cache access and no
BuildStep can have occurred. The result is independent of every oracle,
so no external capability is consulted. -/
theorem c4_recursion_guard (o : Oracles) (now : Int) (task : String)
    (depth : Nat) (w : OrchWorld) (h : depth > 2) :
    run o now task depth w =
      (Except.ok { output := "Max recursion depth reached, stopping further decomposition.",
                   cached := false, phases_executed := none }, w) := by
  rw [run]
  rw [dif_pos h]

/-- Witness for C4: dispatching at depth 3 returns the sentinel untouched. -/
theorem c4_recursion_guard_witness :
    3 > 2 ∧
    run sampleOracles 0 "build a complete system" 3 sampleWorld =
      (Except.ok { output := "Max recursion depth reached, stopping further decomposition.",
                   cached := false, phases_executed := none }, sampleWorld) :=
  ⟨by decide, c4_recursion_guard sampleOracles 0 "build a complete system" 3 sampleWorld (by decide)⟩

/-- Writing then reading the same path in the modelled filesystem returns
the written content. -/
theorem fsRead_fsWrite (fs : Fs) (p c : String) :
    fsRead (fsWrite fs p c) p = some c := by
  unfold fsRead fsWrite
  by_cases hany : fs.any (fun q => q.1 = p)
  · rw [if_pos hany]
    induction fs with
    | nil => simp at hany
    | cons hd tl ih =>
      by_cases hk : hd.1 = p
      · rw [List.map_cons, if_pos hk]
        rw [List.find?_cons_of_pos _ (by simp)]
        rfl
      · rw [List.map_cons, if_neg hk]
        rw [List.find?_cons_of_neg _ (by simpa using hk)]
        exact ih (by simpa [hk] using hany)
  · rw [if_neg hany, List.find?_append]
    have h1 : fs.find? (fun q => q.1 = p) = none := by
      rw [List.find?_eq_none]
      intro x hx
      have := List.any_eq_false.mp (Bool.eq_false_iff.mpr hany) x hx
      simpa using this
    rw [h1]
    simp

/-- The live backend's `write_file` applies every write and consults no
guardian: the file lands on disk with the given content and the approvals
queue is untouched, whatever the path. -/
theorem write_file_current_always_writes (fp content : String) (w : ToolWorld)
    (now : Int) :
    (write_file_current none fp content w now).1 = "Successfully wrote to " ++ fp ∧
    fsRead (write_file_current none fp content w now).2.fs fp = some content ∧
    (write_file_current none fp content w now).2.approvals = w.approvals :=
  ⟨rfl, fsRead_fsWrite w.fs fp content, rfl⟩

/-- C1 failing input: `".env"` is forbidden by the guardian, yet the live
backend's `write_file` writes it to disk, reports success, and creates no
PendingApproval. -/
theorem c1_live_write_ignores_guardian :
    is_forbidden ".env" = true ∧
    (write_file_current none ".env" "SECRET=1" sampleToolWorld 0).1 =
      "Successfully wrote to .env" ∧
    fsRead (write_file_current none ".env" "SECRET=1" sampleToolWorld 0).2.fs ".env" =
      some "SECRET=1" ∧
    (write_file_current none ".env" "SECRET=1" sampleToolWorld 0).2.approvals = [] := by
  refine ⟨by decide, rfl, rfl, rfl⟩

/-- The backup backend's `write_file` rejects a forbidden path outright:
fixed BLOCKED message, world untouched, no approval created. -/
theorem backup_write_forbidden_blocked (syntaxErr : String → Option String)
    (ioError : Option String) (freshId : Nat → String) (fp content : String)
    (w : ToolWorld) (now : Int)
    (hne : ¬ content.trim = "")
    (hres : (pathName fp).toLower ∉ WINDOWS_RESERVED_NAMES)
    (hforb : is_forbidden fp = true) :
    write_file_backup syntaxErr ioError freshId fp content w now =
      ("BLOCKED: '" ++ fp ++ "' is a forbidden path and cannot be written to.", w) := by
  unfold write_file_backup
  rw [if_neg hne]
  dsimp only
  rw [if_neg hres, if_pos hforb]

/-- The backup backend's `write_file` diverts a protected path into the
approval queue: the filesystem, state and disk are untouched and exactly one
new pending approval carrying the path and content is appended. -/
theorem backup_write_protected_queued (syntaxErr : String → Option String)
    (ioError : Option String) (freshId : Nat → String) (fp content : String)
    (w : ToolWorld) (now : Int)
    (hne : ¬ content.trim = "")
    (hres : (pathName fp).toLower ∉ WINDOWS_RESERVED_NAMES)
    (hforb : ¬ is_forbidden fp = true)
    (hprot : is_protected fp = true)
    (hfresh : w.approvals.any (fun b => b.id = freshId w.nextId) = false) :
    (write_file_backup syntaxErr ioError freshId fp content w now).2.fs = w.fs ∧
    (write_file_backup syntaxErr ioError freshId fp content w now).2.sys = w.sys ∧
    (write_file_backup syntaxErr ioError freshId fp content w now).2.disk = w.disk ∧
    (write_file_backup syntaxErr ioError freshId fp content w now).2.approvals =
      w.approvals ++
        [{ id := freshId w.nextId, file_path := fp, content := content,
           reason := "Auto attempted to modify protected core file: " ++ fp,
           requested_at := now, status := "pending", reviewed_at := none }] := by
  unfold write_file_backup
  rw [if_neg hne]
  dsimp only
  rw [if_neg hres, if_neg hforb, if_pos hprot]
  refine ⟨rfl, rfl, rfl, ?_⟩
  dsimp only [request_approval]
  unfold insertApproval
  rw [if_neg (by simp [hfresh])]

/-- A cache read never changes the capability list (it may only delete an
expired cache entry). -/
theorem get_cached_result_caps (st : SystemState) (d : Disk) (k : String)
    (now : Int) :
    ((get_cached_result st d k now).2.1).capabilities = st.capabilities := by
  unfold get_cached_result
  split
  · split <;> rfl
  · rfl

/-- The dispatcher never changes the registered capability list: every branch
of `run` touches only build steps, the task cache, the LRU list and the id
counter. The bound `n` dominates the remaining recursion budget. -/
theorem run_preserves_caps (o : Oracles) (now : Int) :
    ∀ (n : Nat) (task : String) (depth : Nat) (w : OrchWorld), 3 - depth ≤ n →
      ((run o now task depth w).2).sys.capabilities = w.sys.capabilities := by
  intro n
  induction n with
  | zero =>
    intro task depth w hle
    have hd : depth > 2 := by omega
    rw [run, dif_pos hd]
  | succ n ih =>
    intro task depth w hle
    rw [run]
    by_cases hd : depth > 2
    · rw [dif_pos hd]
    · rw [dif_neg hd]
      have hphases : ∀ (phases : List String) (w' : OrchWorld)
          (acc : List (String × RunOut)),
          ((runPhases o now phases (depth + 1) w' acc).2).sys.capabilities
            = w'.sys.capabilities := by
        intro phases
        induction phases with
        | nil =>
          intro w' acc
          rw [runPhases]
        | cons p rest ihp =>
          intro w' acc
          rw [runPhases]
          have hrun := ih p (depth + 1) w' (by omega)
          rcases hr : run o now p (depth + 1) w' with ⟨res, w2⟩
          rw [hr] at hrun
          cases res with
          | error e => exact hrun
          | ok r =>
            dsimp only
            rw [ihp w2 (acc ++ [(p, r)])]
            exact hrun
      dsimp only
      split
      · rename_i r w1 heq
        split at heq
        · rename_i hmem
          obtain ⟨h1, h2⟩ := Prod.mk.injEq _ _ _ _ |>.mp heq
          rw [← h2]
          exact get_cached_result_caps _ _ _ _
        · rename_i hmem
          obtain ⟨h1, h2⟩ := Prod.mk.injEq _ _ _ _ |>.mp heq
          cases h1
      · rename_i w1 heq
        have hw1 : w1.sys.capabilities = w.sys.capabilities := by
          split at heq
          · rename_i hmem
            obtain ⟨h1, h2⟩ := Prod.mk.injEq _ _ _ _ |>.mp heq
            rw [← h2]
            exact get_cached_result_caps _ _ _ _
          · rename_i hmem
            obtain ⟨h1, h2⟩ := Prod.mk.injEq _ _ _ _ |>.mp heq
            rw [← h2]
        by_cases hcx : is_complex_prompt task
        · rw [if_pos hcx]
          rcases hrp : runPhases o now
              (if (o.descPhases (o.planOutput task)).isEmpty then
                o.numberedPhases (o.planOutput task)
               else o.descPhases (o.planOutput task)) (depth + 1) w1 []
            with ⟨res2, w2⟩
          have hw2 := hphases
            (if (o.descPhases (o.planOutput task)).isEmpty then
              o.numberedPhases (o.planOutput task)
             else o.descPhases (o.planOutput task)) w1 []
          rw [hrp] at hw2
          cases res2 with
          | error e =>
            dsimp only
            rw [hw2, hw1]
          | ok agg =>
            exact hw2.trans hw1
        · rw [if_neg hcx]
          cases o.execute task with
          | ok out =>
            exact hw1
          | error e =>
            exact hw1

/-- The capability patch always sets the implemented flag as requested. -/
theorem patchCapFields_implemented (impl : Bool) (fp : Option String)
    (cap : SystemCapability) : (patchCapFields impl fp cap).implemented = impl := by
  unfold patchCapFields
  dsimp only
  split <;> rfl

/-- When at most one capability carries the name, every capability with that
name is implemented after patching the name to implemented. -/
theorem patchCap_marks (n : String) (fp : Option String)
    (l : List SystemCapability)
    (hinv : ((l.filter (fun x => x.name = n)).length) ≤ 1) :
    ∀ x ∈ patchCap n true fp l, x.name = n → x.implemented = true := by
  induction l with
  | nil =>
    intro x hx
    simp [patchCap] at hx
  | cons cap rest ih =>
    intro x hx hxn
    by_cases hc : cap.name = n
    · unfold patchCap at hx
      rw [if_pos hc] at hx
      rcases List.mem_cons.mp hx with heq | hmem
      · subst heq
        exact patchCapFields_implemented true fp cap
      · exfalso
        have hrest : ((rest.filter (fun x => x.name = n)).length) = 0 := by
          have hthis := hinv
          rw [List.filter_cons_of_pos (by simpa using hc), List.length_cons] at hthis
          omega
        have hmemf : x ∈ rest.filter (fun x => x.name = n) :=
          List.mem_filter.mpr ⟨hmem, by simpa using hxn⟩
        rw [List.length_eq_zero] at hrest
        rw [hrest] at hmemf
        simp at hmemf
    · unfold patchCap at hx
      rw [if_neg hc] at hx
      rcases List.mem_cons.mp hx with heq | hmem
      · exfalso
        subst heq
        exact hc hxn
      · have hrest : ((rest.filter (fun x => x.name = n)).length) ≤ 1 := by
          rw [List.filter_cons_of_neg (by simpa using hc)] at hinv
          exact hinv
        exact ih hrest x hmem hxn

/-- On a cold cache, a non-complex task whose execution raises makes `run`
at depth 0 re-raise the executor's error. -/
theorem run_atomic_fails (o : Oracles) (now : Int) (task : String)
    (w : OrchWorld) (e : String)
    (hcx : is_complex_prompt task = false)
    (hlru : o.hash task ∉ w.lru)
    (hex : o.execute task = Except.error e) :
    (run o now task 0 w).1 = Except.error e := by
  rw [run, dif_neg (by omega)]
  simp [hlru, hcx, hex]

/-- On a cold cache, a complex task whose plan yields no phases makes `run`
at depth 0 succeed with an empty summary and zero phases. -/
theorem run_complex_nophases (o : Oracles) (now : Int) (task : String)
    (w : OrchWorld)
    (hcx : is_complex_prompt task = true)
    (hlru : o.hash task ∉ w.lru)
    (hdesc : o.descPhases (o.planOutput task) = [])
    (hnum : o.numberedPhases (o.planOutput task) = []) :
    (run o now task 0 w).1 =
      Except.ok { output := "", cached := false, phases_executed := some 0 } := by
  rw [run, dif_neg (by omega)]
  simp [hlru, hcx, hdesc, hnum, runPhases]
  rfl

/-- C6 (amended): the gap loop returns true exactly on non-empty gap lists;
a gap's failure never aborts the loop (the remaining gaps are processed from
the post-failure world); a gap whose dispatch returns without raising has its
capability marked implemented (under the name-is-primary-key invariant); and
a gap whose dispatch raises leaves the capability list untouched — in
particular its own capability is not marked. -/
theorem c6_generation_loop (o : Oracles) (now : Int) :
    (∀ (gaps : List SystemCapability) (w : OrchWorld),
      (generate_missing_components o now gaps w).1 = !gaps.isEmpty) ∧
    (∀ (g : SystemCapability) (rest : List SystemCapability) (w : OrchWorld),
      gmcLoop o now (g :: rest) w = gmcLoop o now rest (genStep o now g w)) ∧
    (∀ (g : SystemCapability) (w : OrchWorld),
      (∃ out, (run o now (gapTask g) 0 w).1 = Except.ok out) →
      ((w.sys.capabilities.filter (fun c => c.name = g.name)).length ≤ 1) →
      ∀ c ∈ (genStep o now g w).sys.capabilities, c.name = g.name →
        c.implemented = true) ∧
    (∀ (g : SystemCapability) (w : OrchWorld) (e : String),
      (run o now (gapTask g) 0 w).1 = Except.error e →
      (genStep o now g w).sys.capabilities = w.sys.capabilities) := by
  refine ⟨?_, ?_, ?_, ?_⟩
  · intro gaps w
    cases gaps <;> simp [generate_missing_components]
  · intro g rest w
    rfl
  · intro g w hok hinv c hc hcn
    rcases hr : run o now (gapTask g) 0 w with ⟨res, w1⟩
    rcases hok with ⟨out, hout⟩
    rw [hr] at hout
    have hres : res = Except.ok out := hout
    subst hres
    have hw1 : w1.sys.capabilities = w.sys.capabilities := by
      have hp := run_preserves_caps o now 3 (gapTask g) 0 w (by omega)
      rw [hr] at hp
      exact hp
    unfold genStep at hc
    rw [hr] at hc
    dsimp only at hc
    have hinv1 : ((w1.sys.capabilities.filter (fun c => c.name = g.name)).length ≤ 1) := by
      rw [hw1]
      exact hinv
    exact patchCap_marks g.name g.file_path w1.sys.capabilities hinv1 c hc hcn
  · intro g w e herr
    rcases hr : run o now (gapTask g) 0 w with ⟨res, w1⟩
    rw [hr] at herr
    have hres : res = Except.error e := herr
    subst hres
    have hw1 : w1.sys.capabilities = w.sys.capabilities := by
      have hp := run_preserves_caps o now 3 (gapTask g) 0 w (by omega)
      rw [hr] at hp
      exact hp
    unfold genStep
    rw [hr]
    exact hw1

/-- C6 counterexample to the claim as stated: one gap whose dispatch raises;
`generate_missing_components` still returns true, but the gap's capability is
NOT marked implemented — the registered list is unchanged and the single
entry still carries `implemented = false`. -/
theorem c6_counterexample :
    (generate_missing_components cexOracles 0 [cexGap] cexWorld).1 = true ∧
    (generate_missing_components cexOracles 0 [cexGap] cexWorld).2.sys.capabilities
      = [cexGap] ∧
    cexGap.implemented = false := by
  refine ⟨rfl, ?_, rfl⟩
  rcases hr : run cexOracles 0 (gapTask cexGap) 0 cexWorld with ⟨res, w1⟩
  have hrun1 := run_atomic_fails cexOracles 0 (gapTask cexGap) cexWorld "boom"
    (by decide) (by simp [cexOracles, cexWorld]) rfl
  rw [hr] at hrun1
  have hres : res = Except.error "boom" := hrun1
  subst hres
  have hw1 : w1.sys.capabilities = cexWorld.sys.capabilities := by
    have hp := run_preserves_caps cexOracles 0 3 (gapTask cexGap) 0 cexWorld (by omega)
    rw [hr] at hp
    exact hp
  have hgen : (genStep cexOracles 0 cexGap cexWorld).sys.capabilities = [cexGap] := by
    unfold genStep
    rw [hr]
    exact hw1
  show (gmcLoop cexOracles 0 [cexGap] cexWorld).sys.capabilities = [cexGap]
  show (genStep cexOracles 0 cexGap cexWorld).sys.capabilities = [cexGap]
  exact hgen

/-- Witness for C6 (amended) at concrete inputs: the loop reports true on the
non-empty gap list, and the successfully dispatched gap's capability is
marked implemented. -/
theorem c6_generation_loop_witness :
    ((generate_missing_components sampleOracles 0 [c6WitnessGap] c6WitnessWorld).1
       = !([c6WitnessGap] : List SystemCapability).isEmpty) ∧
    (∀ c ∈ (genStep sampleOracles 0 c6WitnessGap c6WitnessWorld).sys.capabilities,
      c.name = c6WitnessGap.name → c.implemented = true) :=
  ⟨(c6_generation_loop sampleOracles 0).1 [c6WitnessGap] c6WitnessWorld,
   (c6_generation_loop sampleOracles 0).2.2.1 c6WitnessGap c6WitnessWorld
     ⟨_, run_complex_nophases sampleOracles 0 (gapTask c6WitnessGap) c6WitnessWorld
        (by decide) (by simp [sampleOracles, c6WitnessWorld]) rfl rfl⟩
     (by decide)⟩

/-- The capability patch keeps the capability's name. -/
theorem patchCapFields_name (b : Bool) (fp : Option String) (cap : SystemCapability) :
    (patchCapFields b fp cap).name = cap.name := by
  unfold patchCapFields
  dsimp only
  split <;> rfl

/-- A truthy path argument is written by the capability patch. -/
theorem patchCapFields_path (b : Bool) (fp : Option String) (cap : SystemCapability)
    (h : strTruthy fp = true) : (patchCapFields b fp cap).file_path = fp := by
  unfold patchCapFields
  dsimp only
  rw [if_pos h]

/-- Membership in a patched list comes from the original list, either
untouched or patched. -/
theorem patchCap_mem (n : String) (b : Bool) (fp : Option String)
    (l : List SystemCapability) :
    ∀ x ∈ patchCap n b fp l, x ∈ l ∨ ∃ y ∈ l, x = patchCapFields b fp y := by
  induction l with
  | nil =>
    intro x hx
    simp [patchCap] at hx
  | cons cap rest ih =>
    intro x hx
    by_cases hc : cap.name = n
    · unfold patchCap at hx
      rw [if_pos hc] at hx
      rcases List.mem_cons.mp hx with heq | hmem
      · exact Or.inr ⟨cap, List.mem_cons_self _ _, heq⟩
      · exact Or.inl (List.mem_cons_of_mem _ hmem)
    · unfold patchCap at hx
      rw [if_neg hc] at hx
      rcases List.mem_cons.mp hx with heq | hmem
      · exact Or.inl (heq ▸ List.mem_cons_self _ _)
      · rcases ih x hmem with h | ⟨y, hy, hxy⟩
        · exact Or.inl (List.mem_cons_of_mem _ h)
        · exact Or.inr ⟨y, List.mem_cons_of_mem _ hy, hxy⟩

/-- Patching preserves list length. -/
theorem patchCap_length (n : String) (b : Bool) (fp : Option String)
    (l : List SystemCapability) : (patchCap n b fp l).length = l.length := by
  induction l with
  | nil => rfl
  | cons cap rest ih =>
    unfold patchCap
    split
    · simp
    · simpa using ih

/-- Patching preserves the list of names. -/
theorem patchCap_names (n : String) (b : Bool) (fp : Option String)
    (l : List SystemCapability) :
    (patchCap n b fp l).map (fun c => c.name) = l.map (fun c => c.name) := by
  induction l with
  | nil => rfl
  | cons cap rest ih =>
    unfold patchCap
    split
    · simp [patchCapFields_name]
    · simpa using ih

/-- When the first capability with the given name sits at index `i`, the
patch loop is exactly a point update at `i`. -/
theorem patchCap_eq_set (n : String) (b : Bool) (fp : Option String)
    (l : List SystemCapability) :
    ∀ (i : Nat) (hi : i < l.length),
      (l.get ⟨i, hi⟩).name = n →
      (∀ j, j < i → ∀ hj : j < l.length, (l.get ⟨j, hj⟩).name ≠ n) →
      patchCap n b fp l = l.set i (patchCapFields b fp (l.get ⟨i, hi⟩)) := by
  induction l with
  | nil =>
    intro i hi
    simp at hi
  | cons cap rest ih =>
    intro i hi hname hfirst
    cases i with
    | zero =>
      unfold patchCap
      rw [if_pos (by simpa using hname)]
      rfl
    | succ i =>
      have hc : cap.name ≠ n := by simpa using hfirst 0 (Nat.succ_pos i) (by simp)
      have hrec := ih i (by simpa using hi) (by simpa using hname)
        (fun j hj hjl => by simpa using hfirst (j + 1) (by omega) (by simpa using hjl))
      unfold patchCap
      rw [if_neg hc, hrec]
      rfl

/-- Under the all-artifacts-exist hypothesis, the gap loop adds nothing:
it returns exactly the reversed accumulator. -/
theorem identify_gaps_aux_all_ok (fsEx : String → Bool) (now : Int) :
    ∀ (fuel i : Nat) (sys : SystemState) (d : Disk) (gaps : List SystemCapability),
      (∀ cap ∈ sys.capabilities, capPathOk fsEx cap = true) →
      (identify_gaps_aux fsEx now i fuel sys d gaps).1 = gaps.reverse := by
  intro fuel
  induction fuel with
  | zero =>
    intro i sys d gaps hall
    rfl
  | succ fuel ih =>
    intro i sys d gaps hall
    unfold identify_gaps_aux
    cases hcap : sys.capabilities[i]? with
    | none => rfl
    | some cap =>
      have hok := hall cap (List.getElem?_mem hcap)
      rcases hp : cap.file_path with _ | p
      · unfold capPathOk at hok
        rw [hp] at hok
        simp at hok
      · have hok' : p ≠ "" ∧ fsEx p = true := by
          unfold capPathOk at hok
          rw [hp] at hok
          rw [Bool.and_eq_true, decide_eq_true_eq] at hok
          exact hok
        dsimp only
        rw [hp]
        dsimp only
        rw [if_pos hok'.1, if_pos hok'.2]
        by_cases himpl : cap.implemented = true
        · rw [if_pos himpl]
          exact ih (i + 1) sys d gaps hall
        · rw [if_neg himpl]
          apply ih (i + 1)
          intro c hc
          rcases patchCap_mem cap.name true (some p) sys.capabilities c hc
            with hmem | ⟨y, hy, hcy⟩
          · exact hall c hmem
          · subst hcy
            rw [capPathOk, patchCapFields_path true (some p) y (by simp [strTruthy, hok'.1])]
            rw [Bool.and_eq_true, decide_eq_true_eq]
            exact hok'

/-- Under the all-artifacts-exist hypothesis and the name-is-primary-key
invariant, the gap loop leaves every capability it has passed implemented:
started from index 0 it ends with every capability implemented. -/
theorem identify_gaps_aux_marks (fsEx : String → Bool) (now : Int) :
    ∀ (fuel i : Nat) (sys : SystemState) (d : Disk) (gaps : List SystemCapability),
      (∀ cap ∈ sys.capabilities, capPathOk fsEx cap = true) →
      (sys.capabilities.map (fun c => c.name)).Nodup →
      fuel + i = sys.capabilities.length →
      (∀ j, ∀ hj : j < sys.capabilities.length, j < i →
        (sys.capabilities.get ⟨j, hj⟩).implemented = true) →
      ∀ cap ∈ (identify_gaps_aux fsEx now i fuel sys d gaps).2.1.capabilities,
        cap.implemented = true := by
  intro fuel
  induction fuel with
  | zero =>
    intro i sys d gaps hall hnd hlen hpre cap hc
    have hred : (identify_gaps_aux fsEx now i 0 sys d gaps).2.1 = sys := rfl
    rw [hred] at hc
    rcases List.mem_iff_get.mp hc with ⟨⟨j, hj⟩, hget⟩
    have himpl := hpre j hj (by omega)
    rw [hget] at himpl
    exact himpl
  | succ fuel ih =>
    intro i sys d gaps hall hnd hlen hpre
    have hi : i < sys.capabilities.length := by omega
    have hcap : sys.capabilities[i]? = some (sys.capabilities.get ⟨i, hi⟩) := by
      rw [List.getElem?_eq_getElem hi, List.get_eq_getElem]
    unfold identify_gaps_aux
    rw [hcap]
    dsimp only
    have hok := hall (sys.capabilities.get ⟨i, hi⟩) (List.get_mem _ _ _)
    rcases hp : (sys.capabilities.get ⟨i, hi⟩).file_path with _ | p
    · unfold capPathOk at hok
      rw [hp] at hok
      simp at hok
    · have hok' : p ≠ "" ∧ fsEx p = true := by
        unfold capPathOk at hok
        rw [hp] at hok
        rw [Bool.and_eq_true, decide_eq_true_eq] at hok
        exact hok
      dsimp only
      rw [if_pos hok'.1, if_pos hok'.2]
      by_cases himpl : (sys.capabilities.get ⟨i, hi⟩).implemented = true
      · rw [if_pos himpl]
        apply ih (i + 1) sys d gaps hall hnd (by omega)
        intro j hj hji
        rcases Nat.lt_succ_iff_lt_or_eq.mp hji with h | h
        · exact hpre j hj h
        · subst h
          exact himpl
      · rw [if_neg himpl]
        have hfirst : ∀ j, j < i → ∀ hj : j < sys.capabilities.length,
            (sys.capabilities.get ⟨j, hj⟩).name ≠
              (sys.capabilities.get ⟨i, hi⟩).name := by
          intro j hji hj heqname
          have hinj := List.nodup_iff_injective_get.mp hnd
          have hj' : j < (sys.capabilities.map (fun c => c.name)).length := by
            simpa using hj
          have hi' : i < (sys.capabilities.map (fun c => c.name)).length := by
            simpa using hi
          have hmapeq : (sys.capabilities.map (fun c => c.name)).get ⟨j, hj'⟩ =
              (sys.capabilities.map (fun c => c.name)).get ⟨i, hi'⟩ := by
            rw [List.get_eq_getElem, List.get_eq_getElem, List.getElem_map,
              List.getElem_map]
            rw [List.get_eq_getElem, List.get_eq_getElem] at heqname
            exact heqname
          have hfin := hinj hmapeq
          have : j = i := by simpa using congrArg Fin.val hfin
          omega
        have hset := patchCap_eq_set (sys.capabilities.get ⟨i, hi⟩).name true (some p)
          sys.capabilities i hi rfl (fun j hji hj => hfirst j hji hj)
        have hcaps : (update_capability sys (sys.capabilities.get ⟨i, hi⟩).name true
            (some p) now).1.capabilities =
            sys.capabilities.set i
              (patchCapFields true (some p) (sys.capabilities.get ⟨i, hi⟩)) := hset
        apply ih (i + 1) _ _ gaps ?hall2 ?hnd2 ?hlen2 ?hpre2
        case hall2 =>
          intro c hc
          rw [hcaps] at hc
          rcases List.mem_or_eq_of_mem_set hc with hmem | hceq
          · exact hall c hmem
          · subst hceq
            unfold capPathOk
            rw [patchCapFields_path true (some p) _ (by simp [strTruthy, hok'.1])]
            rw [Bool.and_eq_true, decide_eq_true_eq]
            exact hok'
        case hnd2 =>
          have hnames : (update_capability sys (sys.capabilities.get ⟨i, hi⟩).name true
              (some p) now).1.capabilities.map (fun c => c.name) =
              sys.capabilities.map (fun c => c.name) :=
            patchCap_names _ _ _ _
          rw [hnames]
          exact hnd
        case hlen2 =>
          rw [hcaps, List.length_set]
          omega
        case hpre2 =>
          intro j hj hji
          have hj2 : j < (sys.capabilities.set i
              (patchCapFields true (some p) (sys.capabilities.get ⟨i, hi⟩))).length := by
            rw [← hcaps]
            exact hj
          rw [List.get_eq_getElem, List.getElem_of_eq hcaps hj]
          rcases Nat.lt_succ_iff_lt_or_eq.mp hji with h | h
          · have hjl : j < sys.capabilities.length := by
              simpa using hj2
            have hne : i ≠ j := by omega
            rw [List.getElem_set_ne hne hj2]
            have hp2 := hpre j hjl h
            rw [List.get_eq_getElem] at hp2
            exact hp2
          · subst h
            rw [List.getElem_set_self hj2]
            exact patchCapFields_implemented true (some p) _

/-- C7: when every registered capability has a truthy artifact path that
exists on the filesystem (and names are unique, per the data model),
`identify_gaps` returns the empty gap list, every capability in the
resulting state is marked implemented (present-but-unmarked artifacts are
auto-marked along the way), and `run_cycle` reports `changed = false`. -/
theorem c7_gap_fixpoint (o : Oracles) (fsEx : String → Bool) (now : Int)
    (w : LoopWorld)
    (hall : ∀ cap ∈ w.ow.sys.capabilities, capPathOk fsEx cap = true)
    (hnames : (w.ow.sys.capabilities.map (fun c => c.name)).Nodup) :
    (identify_gaps fsEx now w.ow.sys w.ow.disk).1 = [] ∧
    (∀ cap ∈ (identify_gaps fsEx now w.ow.sys w.ow.disk).2.1.capabilities,
      cap.implemented = true) ∧
    (run_cycle o fsEx now w).1 = false := by
  have h1 : (identify_gaps fsEx now w.ow.sys w.ow.disk).1 = [] := by
    have hred := identify_gaps_aux_all_ok fsEx now w.ow.sys.capabilities.length 0
      w.ow.sys w.ow.disk [] hall
    simpa [identify_gaps] using hred
  refine ⟨h1, ?_, ?_⟩
  · exact identify_gaps_aux_marks fsEx now w.ow.sys.capabilities.length 0
      w.ow.sys w.ow.disk [] hall hnames (by omega) (by intro j hj hji; omega)
  · unfold run_cycle
    dsimp only
    rw [if_pos (by rw [h1]; rfl : (identify_gaps fsEx now w.ow.sys w.ow.disk).1.isEmpty = true)]

/-- Witness for C7 at a concrete capability set whose single artifact exists. -/
theorem c7_gap_fixpoint_witness :
    (identify_gaps c7Fs 0 c7World.ow.sys c7World.ow.disk).1 = [] ∧
    (∀ cap ∈ (identify_gaps c7Fs 0 c7World.ow.sys c7World.ow.disk).2.1.capabilities,
      cap.implemented = true) ∧
    (run_cycle sampleOracles c7Fs 0 c7World).1 = false :=
  c7_gap_fixpoint sampleOracles c7Fs 0 c7World (by decide) (by decide)
